import Mathlib

/-!
Verification development for the resilient cache-protected execution
pipeline of the flutter_mcp service.  The development shallowly embeds the
three source modules the pipeline consists of:

* `src/cache/cacheManager.js`  — two-tier cache (`CacheManager`): key
  derivation, `get`/`set`, the `withCache` decorator and the `cleanup`
  maintenance routine;
* `src/utils/tokenManager.js`  — token-budget truncation
  (`TokenManager.truncateToLimit` and friends);
* error-handling module — `CircuitBreaker`, `RetryHandler` and the error
  taxonomy (`NetworkError`, `ValidationError`, `TimeoutError`).

JavaScript values are modelled by the inductive `JSVal` (numbers restricted
to integers — no claim below depends on float behaviour), stateful classes
by explicit state records with transition functions, `async` by plain
functions (every operation is modelled at its resolution points), and
thrown errors by `Except`/explicit error results.
-/

namespace FlutterMcp

/-- JSON-like JavaScript values flowing through the pipeline (cache values,
parameters, truncation payloads).  Numbers are restricted to integers;
`undefined` is represented at API boundaries by `Option`. -/
inductive JSVal where
  | null
  | bool (b : Bool)
  | num (n : Int)
  | str (s : String)
  | arr (elems : List JSVal)
  | obj (fields : List (String × JSVal))

/-- JavaScript truthiness (`ToBoolean`) on the modelled values: `null`,
`false`, `0` and `""` are falsy; every array and object is truthy. -/
def truthy : JSVal → Bool
  | .null => false
  | .bool b => b
  | .num n => decide (n ≠ 0)
  | .str s => decide (s ≠ "")
  | .arr _ => true
  | .obj _ => true

mutual

/-- `JSON.stringify` on modelled values.  Fields and elements are emitted in
insertion order, exactly as V8 does for non-integer-like keys.  String
escaping is not modelled (no claim uses strings that need escapes). -/
def stringifyVal : JSVal → String
  | .null => "null"
  | .bool true => "true"
  | .bool false => "false"
  | .num n => toString n
  | .str s => "\"" ++ s ++ "\""
  | .arr es => "[" ++ stringifyList es ++ "]"
  | .obj fs => "\x7b" ++ stringifyFields fs ++ "\x7d"

/-- Comma-separated serialization of array elements. -/
def stringifyList : List JSVal → String
  | [] => ""
  | [v] => stringifyVal v
  | v :: w :: rest => stringifyVal v ++ "," ++ stringifyList (w :: rest)

/-- Comma-separated serialization of object fields, in field order. -/
def stringifyFields : List (String × JSVal) → String
  | [] => ""
  | [(k, v)] => "\"" ++ k ++ "\":" ++ stringifyVal v
  | (k, v) :: f :: rest =>
      "\"" ++ k ++ "\":" ++ stringifyVal v ++ "," ++ stringifyFields (f :: rest)

end

/-! ### Key derivation (`CacheManager.generateKey`)

```js
generateKey(type, params) {
  const keyData = JSON.stringify({ type, ...params });
  return createHash('sha256').update(keyData).digest('hex');
}
```

The object literal `{ type, ...params }` starts from the single field
`type` and spreads `params` over it: each parameter key is updated in place
when already present and appended otherwise, so insertion order is kept.
The SHA-256 digest of `keyData` is a fixed deterministic function of the
canonical string, so two invocations agree on the key exactly when they
agree on `keyData` (up to SHA-256 collisions, which the development — like
the code — treats as absent).  The cache model below therefore uses the
canonical string itself as the stored key. -/

/-- JS object-spread update: assign `k := v` into an ordered field list,
overwriting in place when `k` is present and appending otherwise. -/
def upsertField : List (String × JSVal) → String → JSVal → List (String × JSVal)
  | [], k, v => [(k, v)]
  | (k', v') :: rest, k, v =>
      if k' = k then (k', v) :: rest else (k', v') :: upsertField rest k v

/-- The ordered field list of the object literal `{ type, ...params }`. -/
def keyObject (type : String) (params : List (String × JSVal)) :
    List (String × JSVal) :=
  params.foldl (fun acc kv => upsertField acc kv.1 kv.2) [("type", JSVal.str type)]

/-- The canonical string `keyData` that `generateKey` hashes. -/
def generateKeyData (type : String) (params : List (String × JSVal)) : String :=
  stringifyVal (.obj (keyObject type params))

/-! ### CacheManager state (`src/cache/cacheManager.js`)

The two tiers are modelled as association lists keyed by the canonical key
string (`generateKeyData`; see the note above on the SHA-256 step).  The
serialized `value` column is modelled by the value itself —
`JSON.parse(JSON.stringify(v))` is the identity on the JSON values `JSVal`
models.  Assoc-list position is irrelevant: every observation goes through
key lookup or row aggregation. -/

/-- One row of the SQLite `cache` table. -/
structure Row where
  value : JSVal
  category : String
  createdAt : Nat
  expiresAt : Nat
  hitCount : Nat
  lastAccessed : Nat
  size : Nat

/-- One entry of the in-memory `NodeCache` tier (L1): value plus absolute
expiry in milliseconds. -/
structure MemEntry where
  value : JSVal
  expiresAt : Nat

/-- `CacheManager` state: L1 memory tier, L2 database rows, and the
in-process `stats` counters (the `cache_metadata` mirror of the counters is
not modelled separately). -/
structure CacheState where
  memory : List (String × MemEntry)
  dbRows : List (String × Row)
  hits : Nat
  misses : Nat
  writes : Nat
  evictions : Nat

/-- Association-list lookup by key. -/
def alookup (k : String) : List (String × α) → Option α
  | [] => none
  | (k', v) :: rest => if k' = k then some v else alookup k rest

/-- Remove every binding of key `k`. -/
def aeraseKey (k : String) : List (String × α) → List (String × α)
  | [] => []
  | (k', v') :: rest =>
      if k' = k then aeraseKey k rest else (k', v') :: aeraseKey k rest

/-- `INSERT OR REPLACE` / `NodeCache.set`: bind `k` to `v`, dropping any
previous binding. -/
def aput (k : String) (v : α) (l : List (String × α)) : List (String × α) :=
  (k, v) :: aeraseKey k l

/-- The per-category TTL table (seconds), at the constructor's defaults:
`this.ttlConfig[type] || this.ttlConfig.default`. -/
def ttlConfig (category : String) : Nat :=
  if category = "widgetAnalysis" then 86400
  else if category = "pubPackage" then 43200
  else if category = "flutterDocs" then 86400
  else if category = "performance" then 3600
  else 7200

/-- `NodeCache.get` at time `now` (ms): the stored value when present and
unexpired, otherwise `undefined` (`none`). -/
def memGetVal (memory : List (String × MemEntry)) (key : String) (now : Nat) :
    Option JSVal :=
  match alookup key memory with
  | some e => if now < e.expiresAt then some e.value else none
  | none => none

/-- `SELECT value, expires_at FROM cache WHERE key = ? AND expires_at > ?`. -/
def dbSelect (rows : List (String × Row)) (key : String) (now : Nat) :
    Option Row :=
  match alookup key rows with
  | some r => if now < r.expiresAt then some r else none
  | none => none

/-- The database branch of `CacheManager.get`: on a row hit, bump
`hit_count`/`last_accessed`, promote the value into L1 for 300 s, count a
hit and return the value; otherwise count a miss and return `null`. -/
def cm_getDb (s : CacheState) (key : String) (now : Nat) : JSVal × CacheState :=
  match dbSelect s.dbRows key now with
  | some row =>
      let row' := { row with hitCount := row.hitCount + 1, lastAccessed := now }
      (row.value,
       { s with dbRows := aput key row' s.dbRows,
                memory := aput key ⟨row.value, now + 300 * 1000⟩ s.memory,
                hits := s.hits + 1 })
  | none => (JSVal.null, { s with misses := s.misses + 1 })

/-- `CacheManager.get(type, params)` at time `now`.  The memory tier is
consulted first; `if (memoryResult)` is a JS truthiness test, so a stored
falsy value falls through to the database tier. -/
def cm_get (s : CacheState) (category : String) (params : List (String × JSVal))
    (now : Nat) : JSVal × CacheState :=
  let key := generateKeyData category params
  match memGetVal s.memory key now with
  | some v =>
      if truthy v then (v, { s with hits := s.hits + 1 })
      else cm_getDb s key now
  | none => cm_getDb s key now

/-! ### `cleanup()` — maintenance / capacity eviction -/

/-- The capacity cap: `const maxSize = 100 * 1024 * 1024` (100 MB). -/
def maxCacheBytes : Nat := 100 * 1024 * 1024

/-- `SELECT SUM(size) FROM cache`. -/
def totalDbSize (rows : List (String × Row)) : Nat :=
  (rows.map (fun kv => kv.2.size)).sum

/-- `DELETE FROM cache WHERE expires_at < ?`: keep the unexpired rows. -/
def removeExpired (rows : List (String × Row)) (now : Nat) :
    List (String × Row) :=
  rows.filter (fun kv => !decide (kv.2.expiresAt < now))

/-- The keys selected by
`SELECT key FROM cache ORDER BY last_accessed ASC LIMIT 100`
(stable sort on `last_accessed`; SQLite leaves the tie order unspecified,
which no claim depends on). -/
def lruBatchKeys (rows : List (String × Row)) : List String :=
  ((rows.insertionSort
      (fun a b => a.2.lastAccessed ≤ b.2.lastAccessed)).take 100).map
    (fun kv => kv.1)

/-- One execution of the prepared `DELETE … WHERE key IN (… LIMIT 100)`
statement. -/
def lruBatchDelete (rows : List (String × Row)) : List (String × Row) :=
  rows.filter (fun kv => !(lruBatchKeys rows).contains kv.1)

/-- The state of the capacity-eviction `while` loop in `cleanup()`: the
table rows together with the JS local `totalSize`, which is computed once
before the loop and — faithfully to the source — never reassigned inside
it. -/
structure LruLoop where
  rows : List (String × Row)
  totalSize : Nat

/-- The loop guard `totalSize > maxSize * 0.8` (`0.8 × (100·1024·1024)` is
exactly `83886080` in binary floating point). -/
def lruCond (st : LruLoop) : Bool :=
  decide (st.totalSize > maxCacheBytes * 8 / 10)

/-- One iteration of the eviction loop: run the batched LRU delete.  The
local `totalSize` is left untouched, exactly as in the source. -/
def lruStep (st : LruLoop) : LruLoop :=
  { rows := lruBatchDelete st.rows, totalSize := st.totalSize }

/-- `n` iterations of the eviction loop. -/
def lruIter : Nat → LruLoop → LruLoop
  | 0, st => st
  | n + 1, st => lruIter n (lruStep st)

/-- `cleanup()` as a partial denotation: the expired-row sweep always runs;
the capacity phase is entered when `totalSize > maxSize` and, as proved at
claim C1, its loop guard then never becomes false, so `cleanup` has no
result (`none`) on such states. -/
def cleanupRun (s : CacheState) (now : Nat) : Option CacheState :=
  let kept := removeExpired s.dbRows now
  let evicted := s.dbRows.length - kept.length
  let s' := { s with dbRows := kept, evictions := s.evictions + evicted }
  if totalDbSize s'.dbRows > maxCacheBytes then none else some s'

/-- `CacheManager.set(type, params, value)` at time `now`: write both tiers,
count the write, and on every 100th write run `cleanup()` (whose capacity
phase may not terminate, hence the `Option`). -/
def cm_set (s : CacheState) (category : String) (params : List (String × JSVal))
    (v : JSVal) (now : Nat) : Option CacheState :=
  let key := generateKeyData category params
  let ttl := ttlConfig category
  let expiresAt := now + ttl * 1000
  let size := (stringifyVal v).utf8ByteSize
  let s1 : CacheState :=
    { s with
      memory := aput key ⟨v, now + ttl * 1000⟩ s.memory,
      dbRows := aput key ⟨v, category, now, expiresAt, 0, now, size⟩ s.dbRows,
      writes := s.writes + 1 }
  if (s.writes + 1) % 100 = 0 then cleanupRun s1 now else some s1

/-- The `withCache(type, fn)` decorator applied to `params` at time `now`:
returns the served value, the successor state (`none` when the triggered
cleanup diverges) and whether the underlying producer was invoked. -/
def withCacheCall (s : CacheState) (category : String)
    (producer : List (String × JSVal) → JSVal)
    (params : List (String × JSVal)) (now : Nat) :
    JSVal × Option CacheState × Bool :=
  let res := cm_get s category params now
  if truthy res.1 then (res.1, some res.2, false)
  else
    let result := producer params
    if truthy result then (result, cm_set res.2 category params result now, true)
    else (result, some res.2, true)

/-! ### TokenManager (`src/utils/tokenManager.js`)

Text is modelled as `List Char`.  `countTokens` calls the external
`gpt-3-encoder` and falls back to the in-repo heuristic
`approximateTokens`; the truncation routine is therefore parameterized over
the token-cost function `cnt`, and the in-repo heuristic is embedded
concretely below for evaluation. -/

/-- A `\s` character (the subset relevant to the inputs used here). -/
def isWs (c : Char) : Bool :=
  c = ' ' ∨ c = '\t' ∨ c = '\n' ∨ c = '\r'

/-- Number of maximal whitespace runs, tracking whether a run is open. -/
def wsRunsAux : Bool → List Char → Nat
  | _, [] => 0
  | inRun, c :: rest =>
      if isWs c then (if inRun then 0 else 1) + wsRunsAux true rest
      else wsRunsAux false rest

/-- `text.split(/\s+/).length`: one fragment more than the number of
maximal whitespace runs (JS keeps the empty fragments at either end). -/
def splitWsCount (cs : List Char) : Nat := wsRunsAux false cs + 1

/-- `approximateTokens`: `Math.ceil(words × 1.3)` with `1.3` as the exact
rational `13/10`.  The IEEE-double product agrees with the rational at
every word count a theorem below evaluates this at. -/
def approximateTokens (cs : List Char) : Nat :=
  (13 * splitWsCount cs + 9) / 10

/-- The `priority` option of `truncateToLimit`
(`'start' | 'end' | 'balanced'`). -/
inductive TruncPriority where
  | start
  | tail
  | balanced

/-- The options object of `truncateToLimit` with its defaults
(`preserveStructure` is accepted but never read by the source). -/
structure TruncOptions where
  preserveStructure : Bool := true
  addEllipsis : Bool := true
  priority : TruncPriority := .start

/-- `'...'` -/
def dots : List Char := ['.', '.', '.']

/-- `'\n...[truncated]...\n'` -/
def truncMarker : List Char := "\n...[truncated]...\n".data

/-- The fine-tuning loop of `truncateToLimit`:
`while (countTokens(truncated) > limit && truncated.length > 10)`
`  truncated = truncated.substring(0, truncated.length - 10);`
run with explicit fuel.  Each entered iteration shortens the text by
exactly 10 characters, so `fineTune` below, which supplies the text length
as fuel, always reaches the loop's exit condition. -/
def fineTuneFuel (cnt : List Char → Nat) (limit : Nat) :
    Nat → List Char → List Char
  | 0, t => t
  | fuel + 1, t =>
      if limit < cnt t ∧ 10 < t.length then
        fineTuneFuel cnt limit fuel (t.take (t.length - 10))
      else t

/-- The fine-tuning loop, fuelled by the initial length. -/
def fineTune (cnt : List Char → Nat) (limit : Nat) (t : List Char) :
    List Char :=
  fineTuneFuel cnt limit t.length t

/-- `TokenManager.truncateToLimit(text, limit, options)` with token-cost
function `cnt`.  `estimatedLength` is
`Math.floor(text.length × (limit / currentTokens) × 0.9)`, modelled by the
exact rational floor; the claims below evaluate it only where the
floating-point and rational floors coincide. -/
def truncateToLimit (cnt : List Char → Nat) (text : List Char) (limit : Nat)
    (opts : TruncOptions) : List Char :=
  let currentTokens := cnt text
  if currentTokens ≤ limit then text
  else
    let estimatedLength := text.length * limit * 9 / (currentTokens * 10)
    let truncated :=
      match opts.priority with
      | .tail =>
          let t := text.drop (text.length - estimatedLength)
          if opts.addEllipsis then dots ++ t else t
      | .balanced =>
          let halfLength := estimatedLength / 2
          let st := text.take halfLength
          let en := text.drop (text.length - halfLength)
          st ++ (if opts.addEllipsis then truncMarker else ['\n']) ++ en
      | .start =>
          let t := text.take estimatedLength
          if opts.addEllipsis then t ++ dots else t
    fineTune cnt limit truncated

/-! ### Structured truncation (`smartTruncate` / `truncateObject` /
`truncateValue`)

`truncateObject` keeps a running budget `currentTokens`, started at `2` to
account for the `{}` skeleton, and admits a field only while
`currentTokens + valueTokens ≤ limit`; its three passes (priority fields,
remaining fields in insertion order, deprioritized fields) are embedded as
three fold functions over a `(fields, currentTokens)` state.  The passes
are parameterized by the value-truncator `tv` (the code's
`this.truncateValue`); the knot is tied below with explicit fuel
(`truncateValueF`), which is consumed only when descending into a nested
array or object, so any fuel at least the nesting depth — in particular the
structural size `jsvalSize` of the value — reaches the code's result; the
fuel-0 fallbacks are unreachable from the wrappers.

Numeric modelling notes, as for `truncateToLimit`: `Math.floor(limit*0.3)`,
`Math.floor((limit-currentTokens)*0.5)`, `currentTokens < limit*0.9` and
`Math.floor(remainingTokens*0.8)` are embedded as the exact rational
floors/comparisons (`limit*3/10`, `(limit-cur)*5/10`, `cur*10 < limit*9`,
`r*8/10`); no theorem below evaluates them at a value where the IEEE-double
computation could differ.  `limit - currentTokens`, negative in JS when
`limit < 2`, is clamped at `0` by `Nat` subtraction — this changes only the
sub-limit handed to the value-truncator, never the guarded budget itself.
JS objects cannot carry duplicate keys, so the field lists modelling them
are assumed duplicate-free. -/

mutual

/-- Structural size of a value (an executable bound on its nesting depth),
used as the fuel of `truncateValueF`. -/
def jsvalSize : JSVal → Nat
  | .null => 1
  | .bool _ => 1
  | .num _ => 1
  | .str _ => 1
  | .arr es => jsvalListSize es + 1
  | .obj fs => jsvalFieldsSize fs + 1

/-- Structural size of an element list. -/
def jsvalListSize : List JSVal → Nat
  | [] => 0
  | v :: rest => jsvalSize v + jsvalListSize rest

/-- Structural size of a field list. -/
def jsvalFieldsSize : List (String × JSVal) → Nat
  | [] => 0
  | (_, v) :: rest => jsvalSize v + jsvalFieldsSize rest

end

/-- `const priorityKeys = ['summary', 'description', 'title', 'name',
'error', 'message']` -/
def priorityKeys : List String :=
  ["summary", "description", "title", "name", "error", "message"]

/-- `const deprioritizeKeys = ['metadata', 'debug', 'raw', 'internal']` -/
def deprioritizeKeys : List String :=
  ["metadata", "debug", "raw", "internal"]

/-- The measured cost of one candidate field:
`countTokens(JSON.stringify({ [key]: value }))`. -/
def fieldTokens (cnt : List Char → Nat) (key : String) (value : JSVal) : Nat :=
  cnt (stringifyVal (.obj [(key, value)])).data

/-- First loop of `truncateObject`: try each priority key present in the
object, truncated to 30 % of the limit, adding it only if the budget stays
within `limit`. -/
def objPriorityPass (cnt : List Char → Nat) (tv : JSVal → Nat → JSVal)
    (fs : List (String × JSVal)) (limit : Nat) :
    List String → List (String × JSVal) × Nat → List (String × JSVal) × Nat
  | [], st => st
  | key :: keys, (res, cur) =>
      match alookup key fs with
      | some v =>
          let value := tv v (limit * 3 / 10)
          let valueTokens := fieldTokens cnt key value
          if cur + valueTokens ≤ limit then
            objPriorityPass cnt tv fs limit keys
              (res ++ [(key, value)], cur + valueTokens)
          else
            objPriorityPass cnt tv fs limit keys (res, cur)
      | none => objPriorityPass cnt tv fs limit keys (res, cur)

/-- Second loop of `truncateObject`: every entry that is neither a priority
nor a deprioritized key, truncated to half the remaining budget, added
under the same budget guard. -/
def objOtherPass (cnt : List Char → Nat) (tv : JSVal → Nat → JSVal)
    (limit : Nat) :
    List (String × JSVal) → List (String × JSVal) × Nat →
      List (String × JSVal) × Nat
  | [], st => st
  | (key, value) :: rest, (res, cur) =>
      if key ∈ priorityKeys ∨ key ∈ deprioritizeKeys then
        objOtherPass cnt tv limit rest (res, cur)
      else
        let truncatedValue := tv value ((limit - cur) * 5 / 10)
        let valueTokens := fieldTokens cnt key truncatedValue
        if cur + valueTokens ≤ limit then
          objOtherPass cnt tv limit rest
            (res ++ [(key, truncatedValue)], cur + valueTokens)
        else
          objOtherPass cnt tv limit rest (res, cur)

/-- Third loop of `truncateObject`: deprioritized keys, attempted only
while the budget is below 90 % of the limit, truncated to 80 % of the
remaining budget, under the same guard. -/
def objDeprioritizedPass (cnt : List Char → Nat) (tv : JSVal → Nat → JSVal)
    (fs : List (String × JSVal)) (limit : Nat) :
    List String → List (String × JSVal) × Nat → List (String × JSVal) × Nat
  | [], st => st
  | key :: keys, (res, cur) =>
      match alookup key fs with
      | some v =>
          if cur * 10 < limit * 9 then
            let remainingTokens := limit - cur
            let value := tv v (remainingTokens * 8 / 10)
            let valueTokens := fieldTokens cnt key value
            if cur + valueTokens ≤ limit then
              objDeprioritizedPass cnt tv fs limit keys
                (res ++ [(key, value)], cur + valueTokens)
            else
              objDeprioritizedPass cnt tv fs limit keys (res, cur)
          else
            objDeprioritizedPass cnt tv fs limit keys (res, cur)
      | none => objDeprioritizedPass cnt tv fs limit keys (res, cur)

/-- `truncateObject(obj, limit)` with value-truncator `tv`: the three
passes run from the initial state `({}, 2)`.  The second component is the
internal running budget `currentTokens`; the JS function returns the first
component. -/
def truncateObjectWith (cnt : List Char → Nat) (tv : JSVal → Nat → JSVal)
    (fs : List (String × JSVal)) (limit : Nat) :
    List (String × JSVal) × Nat :=
  objDeprioritizedPass cnt tv fs limit deprioritizeKeys
    (objOtherPass cnt tv limit fs
      (objPriorityPass cnt tv fs limit priorityKeys ([], 2)))

/-- `truncateValue(value, limit)` with explicit fuel for the descent into
nested containers (see the section note).  Strings go through
`truncateToLimit` with its default options; arrays keep their first 10
items, each truncated to an even share of the limit, with a
`'... and N more items'` marker appended when items were dropped; nested
objects go through `truncateObject`; numbers, booleans and `null` are
returned unchanged. -/
def truncateValueF (cnt : List Char → Nat) : Nat → JSVal → Nat → JSVal
  | _, .str s, limit =>
      .str (String.mk (truncateToLimit cnt s.data limit ⟨true, true, .start⟩))
  | fuel + 1, .arr es, limit =>
      let itemLimit := limit / max es.length 1
      let truncated := (es.take 10).map (fun item =>
        truncateValueF cnt fuel item itemLimit)
      if es.length > truncated.length then
        .arr (truncated ++ [.str ("... and "
          ++ toString (es.length - truncated.length) ++ " more items")])
      else
        .arr truncated
  | fuel + 1, .obj fs, limit =>
      .obj (truncateObjectWith cnt (truncateValueF cnt fuel) fs limit).1
  | 0, .arr es, _ => .arr es
  | 0, .obj fs, _ => .obj fs
  | _, v, _ => v

/-- `truncateValue(value, limit)`: the fuelled descent started with enough
fuel (`jsvalSize value` bounds the nesting depth). -/
def truncateValue (cnt : List Char → Nat) (value : JSVal) (limit : Nat) :
    JSVal :=
  truncateValueF cnt (jsvalSize value) value limit

/-- `truncateObject(obj, limit)` as the source composes it, with
`this.truncateValue` as the value-truncator. -/
def truncateObject (cnt : List Char → Nat) (fs : List (String × JSVal))
    (limit : Nat) : List (String × JSVal) × Nat :=
  truncateObjectWith cnt (fun v l => truncateValueF cnt (jsvalSize v) v l)
    fs limit

/-- `TokenManager.smartTruncate(content, limit)`.  `typeof content ===
'string'` selects `truncateToLimit`; `typeof content === 'object'` is true
for `null`, arrays and plain objects: a `null` input reaches
`truncateObject`, whose very first field probe `obj[key] !== undefined`
dereferences `null` and raises a `TypeError` (modelled as `none`); an array
input is handed to `truncateObject`, which treats it via `Object.entries`
as an object with index keys; any other input is returned as
`String(content)`. -/
def smartTruncate (cnt : List Char → Nat) (content : JSVal) (limit : Nat) :
    Option JSVal :=
  match content with
  | .str s =>
      some (.str (String.mk (truncateToLimit cnt s.data limit
        ⟨true, true, .start⟩)))
  | .null => none
  | .arr es =>
      some (.obj (truncateObject cnt
        (es.enum.map (fun p => (toString p.1, p.2))) limit).1)
  | .obj fs => some (.obj (truncateObject cnt fs limit).1)
  | .bool b => some (.str (if b then "true" else "false"))
  | .num n => some (.str (toString n))

/-! ### Error taxonomy and `CircuitBreaker` / `RetryHandler` -/

/-- The error values of the error-handling module: the three declared
subclasses plus the base `Error` class. -/
inductive JsError where
  | network (message : String) (statusCode : Option Int)
  | validation (message : String) (field : Option String)
  | timeout (message : String) (timeoutMs : Option Nat)
  | generic (message : String)
deriving DecidableEq

/-- `error.message` -/
def JsError.message : JsError → String
  | .network m _ => m
  | .validation m _ => m
  | .timeout m _ => m
  | .generic m => m

/-- `error.name` (set by each constructor; `'Error'` for the base class). -/
def JsError.name : JsError → String
  | .network _ _ => "NetworkError"
  | .validation _ _ => "ValidationError"
  | .timeout _ _ => "TimeoutError"
  | .generic _ => "Error"

/-- `this.state ∈ {'CLOSED', 'OPEN', 'HALF_OPEN'}` -/
inductive CBState where
  | closed
  | opened
  | halfOpen
deriving DecidableEq

/-- `CircuitBreaker` instance state, with the constructor's defaults
(`monitoringPeriod` is set by the constructor but never read). -/
structure CircuitBreaker where
  failureThreshold : Nat := 5
  resetTimeout : Nat := 60000
  state : CBState := .closed
  failures : Nat := 0
  lastFailureTime : Option Nat := none
  nextAttemptTime : Option Nat := none
  successCount : Nat := 0
  requestCount : Nat := 0
deriving DecidableEq

/-- What the admission phase of `execute` decides for an arriving call. -/
inductive EntryDecision where
  | invoke
  | rejectThrow
  | rejectFallback
deriving DecidableEq

/-- The admission phase of `CircuitBreaker.execute`: everything `execute`
does before `await fn()`.  In `OPEN`, a call before `nextAttemptTime` is
rejected (fallback result or circuit-open error) without invoking `fn`; at
or after `nextAttemptTime` the state is set to `HALF_OPEN` and the call
proceeds.  In `CLOSED` and `HALF_OPEN` the call proceeds unconditionally. -/
def cbEntry (cb : CircuitBreaker) (now : Nat) (hasFallback : Bool) :
    CircuitBreaker × EntryDecision :=
  if cb.state = .opened then
    if now < cb.nextAttemptTime.getD 0 then
      (cb, if hasFallback then .rejectFallback else .rejectThrow)
    else ({ cb with state := .halfOpen }, .invoke)
  else (cb, .invoke)

/-- `onSuccess()` -/
def onSuccess (cb : CircuitBreaker) : CircuitBreaker :=
  let cb := { cb with failures := 0, successCount := cb.successCount + 1,
                      requestCount := cb.requestCount + 1 }
  if cb.state = .halfOpen then { cb with state := .closed } else cb

/-- `onFailure()` at time `now`. -/
def onFailure (cb : CircuitBreaker) (now : Nat) : CircuitBreaker :=
  let cb := { cb with failures := cb.failures + 1,
                      requestCount := cb.requestCount + 1,
                      lastFailureTime := some now }
  if cb.failures ≥ cb.failureThreshold then
    { cb with state := .opened, nextAttemptTime := some (now + cb.resetTimeout) }
  else cb

/-- Observable result of one `execute` call. -/
inductive ExecOutcome (α : Type) where
  | ok (v : α)
  | fallbackTaken
  | thrown (e : JsError)
deriving DecidableEq

/-- `CircuitBreaker.execute(fn, fallback)` for a call whose underlying
operation, if invoked, resolves with `outcome`: the admission phase, then
the operation with its `onSuccess`/`onFailure` bookkeeping.  Returns the
call result, the new breaker state, and whether `fn` was invoked.  The ISO
timestamp inside the circuit-open message is flattened to the raw
millisecond count (no claim reads the message). -/
def cbExecute (cb : CircuitBreaker) (now : Nat) (hasFallback : Bool)
    (outcome : Except JsError α) : ExecOutcome α × CircuitBreaker × Bool :=
  let ed := cbEntry cb now hasFallback
  match ed.2 with
  | .rejectFallback => (.fallbackTaken, ed.1, false)
  | .rejectThrow =>
      (.thrown (.generic ("Circuit breaker is OPEN. Service unavailable until "
        ++ toString (ed.1.nextAttemptTime.getD 0))), ed.1, false)
  | .invoke =>
      match outcome with
      | .ok v => (.ok v, onSuccess ed.1, true)
      | .error e =>
          let cb2 := onFailure ed.1 now
          if hasFallback then (.fallbackTaken, cb2, true)
          else (.thrown e, cb2, true)

/-- The body of `RetryHandler.execute`'s
`for (attempt = 0; attempt <= maxRetries; attempt++)` loop from iteration
`attempt` on, with `left = maxRetries - attempt` iterations remaining after
the current one (so the loop's `attempt < maxRetries` retry test is the
`left + 1` pattern).  `fn i` is the outcome of the `i`-th invocation of the
operation; the result is paired with the number of invocations performed.
The inter-attempt sleeps (`calculateDelay`) are unobservable to every claim
and are not modelled. -/
def retryGo (maxR : Nat) (fn : Nat → Except JsError α) :
    Nat → Nat → Except JsError α × Nat
  | attempt, 0 =>
      match fn attempt with
      | .ok v => (.ok v, 1)
      | .error e =>
          (.error (.generic ("Failed after " ++ toString (maxR + 1)
            ++ " attempts: " ++ e.message)), 1)
  | attempt, left + 1 =>
      match fn attempt with
      | .ok v => (.ok v, 1)
      | .error _ =>
          let p := retryGo maxR fn (attempt + 1) left
          (p.1, p.2 + 1)

/-- `RetryHandler.execute(fn)` with `maxRetries = maxR`: run the attempt
loop; after exhausting all `maxR + 1` attempts, throw a fresh base-class
`Error` built from the last error's message. -/
def retryExecute (maxR : Nat) (fn : Nat → Except JsError α) :
    Except JsError α × Nat :=
  retryGo maxR fn 0 maxR

/-! ## Helper lemmas -/

theorem alookup_aput (k : String) (v : α) (l : List (String × α)) :
    alookup k (aput k v l) = some v := by
  simp [aput, alookup]

theorem lruStep_totalSize (st : LruLoop) : (lruStep st).totalSize = st.totalSize :=
  rfl

theorem lruIter_totalSize (n : Nat) :
    ∀ st : LruLoop, (lruIter n st).totalSize = st.totalSize := by
  induction n with
  | zero => intro st; rfl
  | succ n ih => intro st; rw [lruIter, ih, lruStep_totalSize]

theorem fineTuneFuel_exit (cnt : List Char → Nat) (limit : Nat) :
    ∀ (fuel : Nat) (t : List Char), t.length ≤ 10 * fuel + 10 →
      cnt (fineTuneFuel cnt limit fuel t) ≤ limit ∨
        (fineTuneFuel cnt limit fuel t).length ≤ 10 := by
  intro fuel
  induction fuel with
  | zero =>
      intro t ht
      right
      simpa [fineTuneFuel] using ht
  | succ fuel ih =>
      intro t ht
      rw [fineTuneFuel]
      split
      · rename_i hcond
        exact ih (t.take (t.length - 10)) (by simp [List.length_take]; omega)
      · rename_i hcond
        rw [not_and_or] at hcond
        omega

theorem fineTune_exit (cnt : List Char → Nat) (limit : Nat) (t : List Char) :
    cnt (fineTune cnt limit t) ≤ limit ∨ (fineTune cnt limit t).length ≤ 10 :=
  fineTuneFuel_exit cnt limit t.length t (by omega)

theorem objPriorityPass_budget (cnt : List Char → Nat)
    (tv : JSVal → Nat → JSVal) (fs : List (String × JSVal)) (limit : Nat) :
    ∀ (keys : List String) (st : List (String × JSVal) × Nat),
      st.2 ≤ limit ∨ st.2 = 2 →
      (objPriorityPass cnt tv fs limit keys st).2 ≤ limit ∨
        (objPriorityPass cnt tv fs limit keys st).2 = 2 := by
  intro keys
  induction keys with
  | nil =>
      intro st h
      simpa [objPriorityPass] using h
  | cons key keys ih =>
      intro st h
      rcases st with ⟨res, cur⟩
      simp only [objPriorityPass]
      cases halo : alookup key fs with
      | some v =>
          simp only [halo]
          split
          · rename_i hguard
            exact ih _ (Or.inl hguard)
          · exact ih _ h
      | none =>
          simp only [halo]
          exact ih _ h

theorem objOtherPass_budget (cnt : List Char → Nat)
    (tv : JSVal → Nat → JSVal) (limit : Nat) :
    ∀ (entries : List (String × JSVal)) (st : List (String × JSVal) × Nat),
      st.2 ≤ limit ∨ st.2 = 2 →
      (objOtherPass cnt tv limit entries st).2 ≤ limit ∨
        (objOtherPass cnt tv limit entries st).2 = 2 := by
  intro entries
  induction entries with
  | nil =>
      intro st h
      simpa [objOtherPass] using h
  | cons kv rest ih =>
      intro st h
      rcases st with ⟨res, cur⟩
      rcases kv with ⟨key, value⟩
      simp only [objOtherPass]
      split
      · exact ih _ h
      · split
        · rename_i hguard
          exact ih _ (Or.inl hguard)
        · exact ih _ h

theorem objDeprioritizedPass_budget (cnt : List Char → Nat)
    (tv : JSVal → Nat → JSVal) (fs : List (String × JSVal)) (limit : Nat) :
    ∀ (keys : List String) (st : List (String × JSVal) × Nat),
      st.2 ≤ limit ∨ st.2 = 2 →
      (objDeprioritizedPass cnt tv fs limit keys st).2 ≤ limit ∨
        (objDeprioritizedPass cnt tv fs limit keys st).2 = 2 := by
  intro keys
  induction keys with
  | nil =>
      intro st h
      simpa [objDeprioritizedPass] using h
  | cons key keys ih =>
      intro st h
      rcases st with ⟨res, cur⟩
      simp only [objDeprioritizedPass]
      cases halo : alookup key fs with
      | some v =>
          simp only [halo]
          split
          · split
            · rename_i hguard
              exact ih _ (Or.inl hguard)
            · exact ih _ h
          · exact ih _ h
      | none =>
          simp only [halo]
          exact ih _ h

theorem truncateObjectWith_budget (cnt : List Char → Nat)
    (tv : JSVal → Nat → JSVal) (fs : List (String × JSVal)) (limit : Nat) :
    (truncateObjectWith cnt tv fs limit).2 ≤ max limit 2 := by
  have h1 := objPriorityPass_budget cnt tv fs limit priorityKeys
    ([], 2) (Or.inr rfl)
  have h2 := objOtherPass_budget cnt tv limit fs _ h1
  have h3 := objDeprioritizedPass_budget cnt tv fs limit deprioritizeKeys _ h2
  rw [truncateObjectWith]
  have hl := Nat.le_max_left limit 2
  have hr := Nat.le_max_right limit 2
  rcases h3 with h | h
  · omega
  · omega

theorem retryGo_ok {α : Type} (maxR : Nat) (fn : Nat → Except JsError α) :
    ∀ (k a left : Nat) (v : α), k ≤ left →
      (∀ i, a ≤ i → i < a + k → ∃ e, fn i = Except.error e) →
      fn (a + k) = Except.ok v →
      retryGo maxR fn a left = (Except.ok v, k + 1) := by
  intro k
  induction k with
  | zero =>
      intro a left v _ _ hok
      simp only [Nat.add_zero] at hok
      cases left with
      | zero => simp [retryGo, hok]
      | succ left => simp [retryGo, hok]
  | succ k ih =>
      intro a left v hle hfail hok
      obtain ⟨left', rfl⟩ : ∃ l', left = l' + 1 := ⟨left - 1, by omega⟩
      obtain ⟨e, he⟩ := hfail a (Nat.le_refl a) (by omega)
      have hrec := ih (a + 1) left' v (by omega)
        (fun i h1 h2 => hfail i (by omega) (by omega))
        (by rw [← hok]; congr 1; omega)
      simp [retryGo, he, hrec]

theorem retryGo_exhaust {α : Type} (maxR : Nat) (fn : Nat → Except JsError α)
    (e : JsError) :
    ∀ (left a : Nat),
      (∀ i, a ≤ i → i < a + left → ∃ e', fn i = Except.error e') →
      fn (a + left) = Except.error e →
      retryGo maxR fn a left =
        (Except.error (JsError.generic ("Failed after " ++ toString (maxR + 1)
          ++ " attempts: " ++ e.message)), left + 1) := by
  intro left
  induction left with
  | zero =>
      intro a _ hlast
      simp only [Nat.add_zero] at hlast
      simp [retryGo, hlast]
  | succ left ih =>
      intro a hfail hlast
      obtain ⟨e', he'⟩ := hfail a (Nat.le_refl a) (by omega)
      have hrec := ih (a + 1)
        (fun i h1 h2 => hfail i (by omega) (by omega))
        (by rw [← hlast]; congr 1; omega)
      simp [retryGo, he', hrec]

/-! ## Claims -/

/-- C1: the claim says that on a durable store whose total size exceeds the
100 MB capacity, `cleanup()` terminates with the total size at or below the
80 % low-water mark.  In the source, the `while (totalSize > maxSize * 0.8)`
guard reads the local `totalSize`, which is computed once before the loop
and never reassigned inside it, so the guard stays true after every number
of iterations and the loop never exits: whenever the initial total exceeds
the capacity, `lruCond` still holds after `n` eviction iterations, for all
`n`. -/
theorem c1_cleanup_capacity_loop_never_exits (st : LruLoop) (n : Nat)
    (h : maxCacheBytes < st.totalSize) :
    lruCond (lruIter n st) = true := by
  rw [lruCond, lruIter_totalSize n st, decide_eq_true_eq]
  revert h
  rw [maxCacheBytes]
  omega

/-- C1 (witness): a store totalling `104857601 > 100 MB` bytes still
satisfies the loop guard after 5 eviction iterations. -/
theorem c1_witness :
    maxCacheBytes < 104857601 ∧ lruCond (lruIter 5 ⟨[], 104857601⟩) = true :=
  ⟨by decide, c1_cleanup_capacity_loop_never_exits ⟨[], 104857601⟩ 5 (by decide)⟩

/-- C2 (counterexample): the claim fails on both of its guarantees.  Cost
bound: with the repository's own token heuristic as the cost function,
truncating `"hello world"` to the limit `0` produces `'...'`, whose cost is
positive — the fine-tuning loop refuses to shrink a string of 10 characters
or fewer, so for limits below the residue's cost the bound is violated.
No-throw: `smartTruncate(null, 100)` raises a `TypeError` (`typeof null ===
'object'` routes `null` into `truncateObject`, which dereferences it)
instead of degrading. -/
theorem c2_counterexample :
    0 < approximateTokens
      (truncateToLimit approximateTokens "hello world".data 0
        ⟨true, true, TruncPriority.start⟩) ∧
    smartTruncate approximateTokens JSVal.null 100 = none :=
  ⟨by decide, rfl⟩

/-- C2 (amended): for every value and limit, truncation degrades instead
of enforcing the exact bound, with the code-forced carve-outs.  String
path: the result of `truncateToLimit` either satisfies the claimed bound
`cost ≤ limit` or is a residue of at most 10 characters (which, for limits
smaller than the cost of such a residue, exceeds the limit).  Structured
path: the running token budget that `truncateObject` enforces on every
field insertion — started at 2 for the `{}` skeleton — never exceeds
`max(limit, 2)`, so for limits below the skeleton's accounted cost the
result degrades to the empty object rather than satisfying the bound.
Totality: `smartTruncate` throws exactly on the input `null` and on no
other value. -/
theorem c2_truncate_cost_bound :
    (∀ (cnt : List Char → Nat) (text : List Char) (limit : Nat)
        (opts : TruncOptions),
        cnt (truncateToLimit cnt text limit opts) ≤ limit ∨
          (truncateToLimit cnt text limit opts).length ≤ 10) ∧
    (∀ (cnt : List Char → Nat) (fs : List (String × JSVal)) (limit : Nat),
        (truncateObject cnt fs limit).2 ≤ max limit 2) ∧
    (∀ (cnt : List Char → Nat) (content : JSVal) (limit : Nat),
        smartTruncate cnt content limit = none ↔ content = JSVal.null) := by
  refine ⟨?_, ?_, ?_⟩
  · intro cnt text limit opts
    rw [truncateToLimit]
    split
    · left
      assumption
    · exact fineTune_exit cnt limit _
  · intro cnt fs limit
    exact truncateObjectWith_budget cnt _ fs limit
  · intro cnt content limit
    cases content <;> simp [smartTruncate]

/-- C3 (counterexample): the derived cache key is *not*
insertion-order-independent — the canonicalization `JSON.stringify({type,
...params})` does not sort keys, so the two orderings of the same two
parameter pairs produce different canonical key strings (hence different
SHA-256 keys). -/
theorem c3_counterexample :
    generateKeyData "pubPackage" [("a", JSVal.num 1), ("b", JSVal.num 2)] ≠
      generateKeyData "pubPackage" [("b", JSVal.num 2), ("a", JSVal.num 1)] := by
  decide

/-- C3 (amended): canonicalization preserves parameter insertion order
instead of sorting keys, so the derived key is order-sensitive: for every
category and every pair of values bound to the distinct keys `"a"` and
`"b"`, presenting the same two bindings in the two different orders always
yields different canonical key strings.  (For identical insertion orders
the key is deterministic by functionality.) -/
theorem c3_generateKey_is_insertion_order_sensitive (t : String) (va vb : JSVal) :
    generateKeyData t [("a", va), ("b", vb)] ≠
      generateKeyData t [("b", vb), ("a", va)] := by
  show stringifyVal (.obj [("type", .str t), ("a", va), ("b", vb)]) ≠
    stringifyVal (.obj [("type", .str t), ("b", vb), ("a", va)])
  intro h
  rw [String.ext_iff] at h
  simp only [stringifyVal, stringifyFields, String.data_append] at h
  simp at h

/-- C7 (counterexample): after exhausting retries on an operation that
always throws a `TimeoutError`, the executor does not propagate that error:
it throws a fresh base-class `Error` whose message merely embeds the last
error's message, so the propagated value differs from the underlying
`TimeoutError` in identity and type. -/
theorem c7_counterexample :
    (retryExecute 3 (fun _ => Except.error (JsError.timeout "boom" none)) :
        Except JsError Nat × Nat).1 =
      Except.error (JsError.generic "Failed after 4 attempts: boom") ∧
    JsError.generic "Failed after 4 attempts: boom" ≠ JsError.timeout "boom" none := by
  constructor
  · rfl
  · decide

/-- C7 (amended): when all attempts fail, `RetryHandler.execute` throws a
new base-class `Error` with message
`"Failed after <maxRetries+1> attempts: <last error message>"`; the last
underlying error's identity and type are not preserved — only its message
is embedded. -/
theorem c7_retry_wraps_last_error {α : Type} (maxR : Nat)
    (fn : Nat → Except JsError α) (e : JsError)
    (hfail : ∀ i, i < maxR → ∃ e', fn i = Except.error e')
    (hlast : fn maxR = Except.error e) :
    (retryExecute maxR fn).1 =
      Except.error (JsError.generic ("Failed after " ++ toString (maxR + 1)
        ++ " attempts: " ++ e.message)) := by
  have h := retryGo_exhaust maxR fn e maxR 0
    (fun i _ h2 => hfail i (by omega)) (by simpa using hlast)
  simp [retryExecute, h]

/-- C7 (witness): instantiation of the amended claim at `maxRetries = 1`
and a constantly-failing validation error. -/
theorem c7_witness :
    (retryExecute 1 (fun _ => Except.error (JsError.validation "bad" (some "f"))) :
        Except JsError Nat × Nat).1 =
      Except.error (JsError.generic ("Failed after " ++ toString (1 + 1)
        ++ " attempts: " ++ (JsError.validation "bad" (some "f")).message)) :=
  c7_retry_wraps_last_error 1 _ _ (fun _ _ => ⟨_, rfl⟩) rfl

/-- C8 (counterexample): validation failures are *not* non-retryable: an
operation that always throws a `ValidationError` is invoked 4 times under
`maxRetries = 3`, not exactly once — `RetryHandler.execute` retries every
error without inspecting its type. -/
theorem c8_counterexample :
    (retryExecute 3 (fun _ => Except.error (JsError.validation "invalid" none)) :
        Except JsError Nat × Nat).2 = 4 ∧
    (retryExecute 3 (fun _ => Except.error (JsError.validation "invalid" none)) :
        Except JsError Nat × Nat).2 ≠ 1 := by
  decide

/-- C8 (amended): the retry executor does not special-case validation
errors: an operation that always throws a `ValidationError` is retried like
any other failing operation, is invoked exactly `maxRetries + 1` times, and
the executor then throws the wrapping base-class `Error`. -/
theorem c8_validation_errors_are_retried {α : Type} (maxR : Nat) (msg : String)
    (field : Option String) :
    (retryExecute maxR (fun _ => Except.error (JsError.validation msg field)) :
        Except JsError α × Nat) =
      (Except.error (JsError.generic ("Failed after " ++ toString (maxR + 1)
        ++ " attempts: " ++ msg)), maxR + 1) := by
  have h := retryGo_exhaust maxR
    (fun _ => (Except.error (JsError.validation msg field) : Except JsError α))
    (JsError.validation msg field) maxR 0 (fun _ _ _ => ⟨_, rfl⟩) rfl
  simpa [retryExecute, JsError.message] using h

/-- C9: invocation counts of `RetryHandler.execute`: an operation failing
exactly `k < maxRetries` times and then succeeding resolves with the
success value after exactly `k + 1` invocations, and an always-failing
operation throws after exactly `maxRetries + 1` invocations. -/
theorem c9_retry_attempt_counts {α : Type} :
    (∀ (maxR k : Nat) (fn : Nat → Except JsError α) (v : α),
        k < maxR →
        (∀ i, i < k → ∃ e, fn i = Except.error e) →
        fn k = Except.ok v →
        retryExecute maxR fn = (Except.ok v, k + 1)) ∧
    (∀ (maxR : Nat) (fn : Nat → Except JsError α),
        (∀ i, ∃ e, fn i = Except.error e) →
        (∃ e', (retryExecute maxR fn).1 = Except.error e') ∧
          (retryExecute maxR fn).2 = maxR + 1) := by
  constructor
  · intro maxR k fn v hk hfail hok
    have h := retryGo_ok maxR fn k 0 maxR v (Nat.le_of_lt hk)
      (fun i _ h2 => hfail i (by omega)) (by simpa using hok)
    simpa [retryExecute] using h
  · intro maxR fn hfail
    obtain ⟨e, he⟩ := hfail maxR
    have h := retryGo_exhaust maxR fn e maxR 0
      (fun i _ _ => hfail i) (by simpa using he)
    refine ⟨⟨JsError.generic ("Failed after " ++ toString (maxR + 1)
      ++ " attempts: " ++ e.message), ?_⟩, ?_⟩ <;> simp [retryExecute, h]

/-- C9 (witness): an operation failing once then succeeding resolves with
the success value after 2 invocations under `maxRetries = 3`; an
always-failing operation throws after 3 invocations under
`maxRetries = 2`. -/
theorem c9_witness :
    retryExecute 3 (fun i => if i < 1 then Except.error (JsError.generic "x")
        else Except.ok (42 : Nat)) = (Except.ok 42, 1 + 1) ∧
    ((∃ e', (retryExecute 2 (fun _ => Except.error (JsError.timeout "t" none)) :
        Except JsError Nat × Nat).1 = Except.error e') ∧
      (retryExecute 2 (fun _ => Except.error (JsError.timeout "t" none)) :
        Except JsError Nat × Nat).2 = 2 + 1) := by
  constructor
  · exact c9_retry_attempt_counts.1 3 1 _ 42 (by decide)
      (fun i hi => ⟨JsError.generic "x", by rw [if_pos hi]⟩) rfl
  · exact c9_retry_attempt_counts.2 2 _ (fun _ => ⟨_, rfl⟩)

/-- C4 (counterexample): with the breaker `OPEN` and the reset timeout
elapsed (`now = nextAttemptTime = 100`), a first call is admitted and moves
the state to `HALF_OPEN`; a second call arriving while that trial is still
unresolved (no `onSuccess`/`onFailure` has run) is *also* admitted to invoke
the underlying operation, contradicting the claim that no second call may
invoke it before the trial resolves. -/
theorem c4_counterexample :
    (cbEntry ⟨5, 60000, CBState.opened, 5, some 40, some 100, 0, 0⟩ 100 false).2 =
        EntryDecision.invoke ∧
    (cbEntry ⟨5, 60000, CBState.opened, 5, some 40, some 100, 0, 0⟩ 100 false).1.state =
        CBState.halfOpen ∧
    (cbEntry (cbEntry ⟨5, 60000, CBState.opened, 5, some 40, some 100, 0, 0⟩
        100 false).1 100 false).2 = EntryDecision.invoke := by
  decide

/-- C4 (amended): when the breaker is `OPEN` and the reset timeout has
elapsed, the arriving call transitions the state to `HALF_OPEN` and is
allowed through; but while the breaker is `HALF_OPEN`, every further
arriving call is also allowed through to the underlying operation — the
implementation does not restrict `HALF_OPEN` to a single trial call. -/
theorem c4_half_open_admits_every_call :
    (∀ (cb : CircuitBreaker) (now : Nat) (hasFb : Bool),
        cb.state = CBState.opened → cb.nextAttemptTime.getD 0 ≤ now →
        cbEntry cb now hasFb =
          ({ cb with state := CBState.halfOpen }, EntryDecision.invoke)) ∧
    (∀ (cb : CircuitBreaker) (now : Nat) (hasFb : Bool),
        cb.state = CBState.halfOpen →
        cbEntry cb now hasFb = (cb, EntryDecision.invoke)) := by
  constructor
  · intro cb now hasFb hst hle
    simp [cbEntry, hst, Nat.not_lt.mpr hle]
  · intro cb now hasFb hst
    simp [cbEntry, hst]

/-- C4 (witness): instantiations of both halves of the amended claim at a
concrete breaker and time. -/
theorem c4_witness :
    cbEntry ⟨5, 60000, CBState.opened, 5, some 40, some 100, 0, 0⟩ 150 true =
      ({ (⟨5, 60000, CBState.opened, 5, some 40, some 100, 0, 0⟩ : CircuitBreaker)
          with state := CBState.halfOpen }, EntryDecision.invoke) ∧
    cbEntry ⟨5, 60000, CBState.halfOpen, 5, some 40, some 100, 0, 0⟩ 150 true =
      (⟨5, 60000, CBState.halfOpen, 5, some 40, some 100, 0, 0⟩,
        EntryDecision.invoke) :=
  ⟨c4_half_open_admits_every_call.1 _ 150 true rfl (by decide),
   c4_half_open_admits_every_call.2 _ 150 true rfl⟩

/-- C6: a failure that brings the failure count to the threshold opens the
breaker with `nextAttemptAt = now + resetTimeout`; and every call arriving
at an `OPEN` breaker before `nextAttemptAt` is rejected without invoking
the underlying operation and without changing the breaker — with the
fallback's result when a fallback is supplied, and with a thrown
circuit-open error otherwise. -/
theorem c6_breaker_opens_and_rejects {α : Type} :
    (∀ (cb : CircuitBreaker) (now : Nat),
        cb.failureThreshold ≤ cb.failures + 1 →
        (onFailure cb now).state = CBState.opened ∧
          (onFailure cb now).nextAttemptTime = some (now + cb.resetTimeout) ∧
          (onFailure cb now).failures = cb.failures + 1) ∧
    (∀ (cb : CircuitBreaker) (now : Nat) (hasFb : Bool)
        (outcome : Except JsError α),
        cb.state = CBState.opened → now < cb.nextAttemptTime.getD 0 →
        (cbExecute cb now hasFb outcome).2.2 = false ∧
          (cbExecute cb now hasFb outcome).2.1 = cb ∧
          (hasFb = true →
            (cbExecute cb now hasFb outcome).1 = ExecOutcome.fallbackTaken) ∧
          (hasFb = false →
            ∃ e, (cbExecute cb now hasFb outcome).1 = ExecOutcome.thrown e)) := by
  constructor
  · intro cb now h
    simp [onFailure, h]
  · intro cb now hasFb outcome hst hlt
    cases hasFb
    · refine ⟨?_, ?_, ?_, ?_⟩ <;> simp [cbExecute, cbEntry, hst, hlt]
    · refine ⟨?_, ?_, ?_, ?_⟩ <;> simp [cbExecute, cbEntry, hst, hlt]

/-- C6 (witness): a 5th consecutive failure at threshold 5 opens the
breaker with `nextAttemptAt = 1000 + 60000`; a call at `2000 < 61000` on
the opened breaker does not invoke the operation and leaves the breaker
unchanged. -/
theorem c6_witness :
    ((onFailure ⟨5, 60000, CBState.closed, 4, none, none, 0, 0⟩ 1000).state =
        CBState.opened ∧
      (onFailure ⟨5, 60000, CBState.closed, 4, none, none, 0, 0⟩
          1000).nextAttemptTime = some (1000 + 60000) ∧
      (onFailure ⟨5, 60000, CBState.closed, 4, none, none, 0, 0⟩
          1000).failures = 4 + 1) ∧
    ((cbExecute ⟨5, 60000, CBState.opened, 5, some 1000, some 61000, 0, 0⟩
        2000 false (Except.ok (0 : Nat))).2.2 = false ∧
      (cbExecute ⟨5, 60000, CBState.opened, 5, some 1000, some 61000, 0, 0⟩
        2000 false (Except.ok (0 : Nat))).2.1 =
        ⟨5, 60000, CBState.opened, 5, some 1000, some 61000, 0, 0⟩ ∧
      (false = true →
        (cbExecute ⟨5, 60000, CBState.opened, 5, some 1000, some 61000, 0, 0⟩
          2000 false (Except.ok (0 : Nat))).1 = ExecOutcome.fallbackTaken) ∧
      (false = false →
        ∃ e, (cbExecute ⟨5, 60000, CBState.opened, 5, some 1000, some 61000, 0, 0⟩
          2000 false (Except.ok (0 : Nat))).1 = ExecOutcome.thrown e)) :=
  ⟨(@c6_breaker_opens_and_rejects Nat).1 _ 1000 (by decide),
   (@c6_breaker_opens_and_rejects Nat).2 _ 2000 false _ rfl (by decide)⟩

/-! ## Cache tier lemmas -/

theorem memGetVal_aput (mem : List (String × MemEntry)) (key : String)
    (v : JSVal) (e t2 : Nat) :
    memGetVal (aput key ⟨v, e⟩ mem) key t2 =
      if t2 < e then some v else none := by
  simp [memGetVal, alookup_aput]

theorem dbSelect_aput (rows : List (String × Row)) (key : String) (r : Row)
    (t2 : Nat) :
    dbSelect (aput key r rows) key t2 =
      if t2 < r.expiresAt then some r else none := by
  simp [dbSelect, alookup_aput]

theorem alookup_removeExpired_aput (key : String) (r : Row)
    (rows : List (String × Row)) (now : Nat) (hkeep : ¬ r.expiresAt < now) :
    alookup key (removeExpired (aput key r rows) now) = some r := by
  rw [removeExpired, aput, List.filter_cons_of_pos (by simpa using hkeep)]
  simp [alookup]

theorem memGetVal_none_mono (mem : List (String × MemEntry)) (key : String)
    (now t2 : Nat) (ht : now ≤ t2) (h : memGetVal mem key now = none) :
    memGetVal mem key t2 = none := by
  unfold memGetVal at h ⊢
  split at h
  · split at h
    · simp at h
    · rename_i hx
      rw [if_neg (by omega)]
  · rfl

theorem memGetVal_some_stable (mem : List (String × MemEntry)) (key : String)
    (now t2 : Nat) (v : JSVal) (_ht : now ≤ t2)
    (h : memGetVal mem key now = some v) :
    memGetVal mem key t2 = some v ∨ memGetVal mem key t2 = none := by
  unfold memGetVal at h ⊢
  split at h
  · rename_i e heq
    split at h
    · by_cases h2 : t2 < e.expiresAt
      · left
        rw [if_pos h2]
        exact h
      · right
        rw [if_neg h2]
    · simp at h
  · simp at h

theorem dbSelect_none_mono (rows : List (String × Row)) (key : String)
    (now t2 : Nat) (ht : now ≤ t2) (h : dbSelect rows key now = none) :
    dbSelect rows key t2 = none := by
  unfold dbSelect at h ⊢
  split at h
  · split at h
    · simp at h
    · rename_i hx
      rw [if_neg (by omega)]
  · rfl

theorem cm_get_hit_value (s2 : CacheState) (category : String)
    (params : List (String × JSVal)) (t : Nat) (v : JSVal) (exp1 : Nat)
    (row : Row)
    (hmem : alookup (generateKeyData category params) s2.memory =
      some ⟨v, exp1⟩)
    (hdb : alookup (generateKeyData category params) s2.dbRows = some row)
    (hrv : row.value = v) (h1 : t < exp1) (h2 : t < row.expiresAt) :
    (cm_get s2 category params t).1 = v := by
  have hm : memGetVal s2.memory (generateKeyData category params) t = some v := by
    simp [memGetVal, hmem, h1]
  by_cases htr : truthy v
  · simp [cm_get, hm, htr]
  · have hd : dbSelect s2.dbRows (generateKeyData category params) t = some row := by
      simp [dbSelect, hdb, h2]
    simp [cm_get, cm_getDb, hm, hd, htr, hrv]

/-- C5: reading back a freshly written entry before its expiry returns the
written value: whenever `set(category, params, v)` at time `now` completes
(`some s'` — the triggered cleanup, when any, terminated), a
`get(category, params)` at any time `t` before `now + ttl(category)`
returns `v`, through the memory tier when `v` is truthy and through the
database tier otherwise. -/
theorem c5_set_then_get (s : CacheState) (category : String)
    (params : List (String × JSVal)) (v : JSVal) (now t : Nat)
    (s' : CacheState)
    (hset : cm_set s category params v now = some s')
    (ht : t < now + ttlConfig category * 1000) :
    (cm_get s' category params t).1 = v := by
  rw [cm_set] at hset
  split at hset
  · -- every-100th-write case: cleanup ran and terminated
    rw [cleanupRun] at hset
    split at hset
    · simp at hset
    · simp only [Option.some.injEq] at hset
      subst hset
      refine cm_get_hit_value _ category params t v
        (now + ttlConfig category * 1000)
        ⟨v, category, now, now + ttlConfig category * 1000, 0, now,
          (stringifyVal v).utf8ByteSize⟩
        (alookup_aput _ _ _) ?_ rfl ht ht
      exact alookup_removeExpired_aput _ _ _ now
        (by show ¬ now + ttlConfig category * 1000 < now; omega)
  · simp only [Option.some.injEq] at hset
    subst hset
    exact cm_get_hit_value _ category params t v
      (now + ttlConfig category * 1000)
      ⟨v, category, now, now + ttlConfig category * 1000, 0, now,
        (stringifyVal v).utf8ByteSize⟩
      (alookup_aput _ _ _) (alookup_aput _ _ _) rfl ht ht

/-- C5 (witness): on an empty cache, setting a `pubPackage` entry at time 0
and reading it back at time 5 returns the stored value. -/
theorem c5_witness :
    (cm_get ((cm_set ⟨[], [], 0, 0, 0, 0⟩ "pubPackage"
        [("packageName", JSVal.str "http")] (JSVal.str "1.2.0") 0).getD
          ⟨[], [], 0, 0, 0, 0⟩)
      "pubPackage" [("packageName", JSVal.str "http")] 5).1 =
      JSVal.str "1.2.0" :=
  c5_set_then_get ⟨[], [], 0, 0, 0, 0⟩ "pubPackage"
    [("packageName", JSVal.str "http")] (JSVal.str "1.2.0") 0 5 _ rfl
    (by decide)

theorem cm_getDb_falsy_stable (s : CacheState) (category : String)
    (params : List (String × JSVal)) (now t2 : Nat) (ht : now ≤ t2)
    (h : truthy (cm_getDb s (generateKeyData category params) now).1 = false)
    (hmem2 : memGetVal s.memory (generateKeyData category params) t2 = none ∨
      ∃ w, memGetVal s.memory (generateKeyData category params) t2 = some w ∧
        truthy w = false) :
    truthy (cm_get (cm_getDb s (generateKeyData category params) now).2
      category params t2).1 = false := by
  rcases hdb : dbSelect s.dbRows (generateKeyData category params) now with _ | row
  case none =>
    have hy : cm_getDb s (generateKeyData category params) now =
        (JSVal.null, { s with misses := s.misses + 1 }) := by
      simp [cm_getDb, hdb]
    rw [hy]
    have hdb2 : dbSelect s.dbRows (generateKeyData category params) t2 = none :=
      dbSelect_none_mono _ _ now t2 ht hdb
    have hnull : truthy JSVal.null = false := rfl
    rcases hmem2 with hm2 | ⟨w, hm2, hw⟩
    · simp [cm_get, cm_getDb, hm2, hdb2, hnull]
    · simp [cm_get, cm_getDb, hm2, hw, hdb2, hnull]
  case some =>
    have hy : cm_getDb s (generateKeyData category params) now =
        (row.value,
         { s with
            dbRows := aput (generateKeyData category params)
              { row with hitCount := row.hitCount + 1, lastAccessed := now }
              s.dbRows,
            memory := aput (generateKeyData category params)
              ⟨row.value, now + 300 * 1000⟩ s.memory,
            hits := s.hits + 1 }) := by
      simp [cm_getDb, hdb]
    rw [hy] at h ⊢
    replace h : truthy row.value = false := h
    have hnull : truthy JSVal.null = false := rfl
    by_cases h2 : t2 < now + 300 * 1000 <;> by_cases h3 : t2 < row.expiresAt <;>
      simp [cm_get, cm_getDb, memGetVal_aput, dbSelect_aput, h2, h3, h, hnull]

theorem cm_get_falsy_stable (s : CacheState) (category : String)
    (params : List (String × JSVal)) (now t2 : Nat) (ht : now ≤ t2)
    (h : truthy (cm_get s category params now).1 = false) :
    truthy (cm_get (cm_get s category params now).2 category params t2).1 =
      false := by
  rcases hm : memGetVal s.memory (generateKeyData category params) now with _ | v
  case some =>
    by_cases htr : truthy v
    · have hx : cm_get s category params now = (v, { s with hits := s.hits + 1 }) := by
        simp [cm_get, hm, htr]
      rw [hx] at h
      simp [htr] at h
    · have hx : cm_get s category params now =
          cm_getDb s (generateKeyData category params) now := by
        simp [cm_get, hm, htr]
      rw [hx] at h ⊢
      have hmem2 : memGetVal s.memory (generateKeyData category params) t2 = none ∨
          ∃ w, memGetVal s.memory (generateKeyData category params) t2 = some w ∧
            truthy w = false := by
        rcases memGetVal_some_stable s.memory _ now t2 v ht hm with h1 | h1
        · right
          exact ⟨v, h1, by simpa using htr⟩
        · left
          exact h1
      exact cm_getDb_falsy_stable s category params now t2 ht h hmem2
  case none =>
    have hx : cm_get s category params now =
        cm_getDb s (generateKeyData category params) now := by
      simp [cm_get, hm]
    rw [hx] at h ⊢
    exact cm_getDb_falsy_stable s category params now t2 ht h
      (Or.inl (memGetVal_none_mono _ _ now t2 ht hm))

/-- C10: `withCache` never caches a falsy produced result.  On a cache miss
(the wrapped `get` returned a falsy value), when the producer's result is
falsy the producer is invoked, its result is returned, the cache write is
skipped (the state is exactly the post-`get` state), and a subsequent call
at any later time invokes the producer again; only a truthy result is
stored, via `set`, into the cache. -/
theorem c10_withCache_never_caches_falsy (s : CacheState) (category : String)
    (producer : List (String × JSVal) → JSVal)
    (params : List (String × JSVal)) (now t2 : Nat) (ht : now ≤ t2)
    (hmiss : truthy (cm_get s category params now).1 = false)
    (hfalsy : truthy (producer params) = false) :
    (withCacheCall s category producer params now).2.2 = true ∧
    (withCacheCall s category producer params now).1 = producer params ∧
    (withCacheCall s category producer params now).2.1 =
      some (cm_get s category params now).2 ∧
    (withCacheCall (cm_get s category params now).2 category producer params
      t2).2.2 = true ∧
    (∀ q : List (String × JSVal) → JSVal, truthy (q params) = true →
      (withCacheCall s category q params now).2.1 =
        cm_set (cm_get s category params now).2 category params (q params) now) := by
  have h2 := cm_get_falsy_stable s category params now t2 ht hmiss
  refine ⟨?_, ?_, ?_, ?_, ?_⟩
  · simp [withCacheCall, hmiss, hfalsy]
  · simp [withCacheCall, hmiss, hfalsy]
  · simp [withCacheCall, hmiss, hfalsy]
  · simp only [withCacheCall, h2]
    split
    · rename_i hcontra
      exact absurd hcontra (by simp)
    · split <;> rfl
  · intro q hq
    simp [withCacheCall, hmiss, hq]

/-- C10 (witness): on an empty cache, a producer returning `null` is
invoked, nothing is written (the state is the post-`get` state), and the
producer is invoked again on a second call at a later time. -/
theorem c10_witness :
    (withCacheCall ⟨[], [], 0, 0, 0, 0⟩ "flutterDocs" (fun _ => JSVal.null)
        [("k", JSVal.num 1)] 0).2.2 = true ∧
    (withCacheCall ⟨[], [], 0, 0, 0, 0⟩ "flutterDocs" (fun _ => JSVal.null)
        [("k", JSVal.num 1)] 0).2.1 =
      some (cm_get ⟨[], [], 0, 0, 0, 0⟩ "flutterDocs" [("k", JSVal.num 1)] 0).2 ∧
    (withCacheCall
        (cm_get ⟨[], [], 0, 0, 0, 0⟩ "flutterDocs" [("k", JSVal.num 1)] 0).2
        "flutterDocs" (fun _ => JSVal.null) [("k", JSVal.num 1)] 7).2.2 = true := by
  have h := c10_withCache_never_caches_falsy ⟨[], [], 0, 0, 0, 0⟩ "flutterDocs"
    (fun _ => JSVal.null) [("k", JSVal.num 1)] 0 7 (by omega) rfl rfl
  exact ⟨h.1, h.2.2.1, h.2.2.2.1⟩

end FlutterMcp
